import Mathlib

/-!
Verification of the v8-JS lexer-generator automaton pipeline
(`src/parser/tools/lexer_generator/`): terms and actions (`action.py`),
NFA matching and subset construction (`nfa.py`), the DFA and its Hopcroft
minimizer (`dfa.py`), the repeat construction of the NFA builder
(`nfa_builder.py`) and the state pre-transform of the code generator
(`code_generator.py`), embedded shallowly as executable Lean definitions.
Python dicts and sets are embedded as association lists / sorted lists of
ids; iteration order over a set is embedded as ascending id order, and
over a dict as insertion order.  `transition_keys.py` is not part of the
tree, so `TransitionKey` is modelled from the spec.
-/

namespace V8Lex

/-- Embeds `Term` of `action.py`: an immutable `(name, args...)` tuple whose
args are integers, strings or Terms.  `intT`/`strT` embed the int and string
argument values; a Python `Term` itself is always a `term` node. -/
inductive Term where
  | intT (i : Int)
  | strT (s : String)
  | term (name : String) (args : List Term)

mutual

/-- Structural (tuple) equality of `Term`s, as used by `Term.__eq__`. -/
def Term.decEq : (a b : Term) → Decidable (a = b)
  | .intT a, .intT b =>
    if h : a = b then .isTrue (by rw [h])
    else .isFalse (by intro hc; cases hc; exact h rfl)
  | .strT a, .strT b =>
    if h : a = b then .isTrue (by rw [h])
    else .isFalse (by intro hc; cases hc; exact h rfl)
  | .term n1 l1, .term n2 l2 =>
    if h : n1 = n2 then
      match Term.decEqList l1 l2 with
      | .isTrue h2 => .isTrue (by rw [h, h2])
      | .isFalse h2 => .isFalse (by intro hc; injection hc; contradiction)
    else .isFalse (by intro hc; injection hc; contradiction)
  | .intT _, .strT _ => .isFalse (by intro h; cases h)
  | .intT _, .term _ _ => .isFalse (by intro h; cases h)
  | .strT _, .intT _ => .isFalse (by intro h; cases h)
  | .strT _, .term _ _ => .isFalse (by intro h; cases h)
  | .term _ _, .intT _ => .isFalse (by intro h; cases h)
  | .term _ _, .strT _ => .isFalse (by intro h; cases h)

/-- Structural equality of `Term` argument lists. -/
def Term.decEqList : (a b : List Term) → Decidable (a = b)
  | [], [] => .isTrue rfl
  | [], _ :: _ => .isFalse (by intro h; cases h)
  | _ :: _, [] => .isFalse (by intro h; cases h)
  | x :: xs, y :: ys =>
    match Term.decEq x y, Term.decEqList xs ys with
    | .isTrue h1, .isTrue h2 => .isTrue (by rw [h1, h2])
    | .isFalse h1, _ => .isFalse (by intro hc; injection hc; contradiction)
    | _, .isFalse h2 => .isFalse (by intro hc; injection hc; contradiction)

end

instance : DecidableEq Term := Term.decEq

/-- `Term.empty_term()`: the Term with empty name and no args. -/
def Term.emptyTerm : Term := .term "" []

/-- `Term.__nonzero__`: true iff the name is non-empty. -/
def Term.nonzero : Term → Bool
  | .term name _ => name ≠ ""
  | .intT _ => true
  | .strT _ => true

/-- Embeds `Action` of `action.py`: a pair of a `Term` and an integer
precedence (the empty action has precedence `-1`). -/
structure Action where
  term : Term
  precedence : Int
deriving DecidableEq

/-- `Action.empty_action()`. -/
def Action.emptyAction : Action := ⟨Term.emptyTerm, -1⟩

/-- `Action.__nonzero__`: an action is truthy iff its term is truthy. -/
def Action.nonzero (a : Action) : Bool := a.term.nonzero

/-- `Action.__eq__` (action.py line 118): instance check plus comparison of
the two terms only; the precedences are not consulted. -/
def Action.eq (a b : Action) : Bool := a.term == b.term

/-- Python truthiness of `state.action()`: `None` and the empty action are
falsy. -/
def optActionTruthy : Option Action → Bool
  | none => false
  | some a => a.nonzero

/-- Embeds the loop of `Nfa.__gather_actions` (nfa.py lines 152-165), the
iteration over the state set made explicit as a list of each state's
(optional) action.  A failing `assert state.action() == action` is embedded
as `.error ()` (a bare `AssertionError` carries no payload). -/
def gatherGo : List (Option Action) → Option Action → Except Unit (Option Action)
  | [], acc => .ok acc
  | none :: rest, acc => gatherGo rest acc
  | some a :: rest, acc =>
    if a.nonzero = false then gatherGo rest acc
    else match acc with
      | none => gatherGo rest (some a)
      | some d =>
        if d.nonzero = false then gatherGo rest (some a)
        else if a.precedence = d.precedence then
          (if Action.eq a d then gatherGo rest (some d) else .error ())
        else if a.precedence < d.precedence then gatherGo rest (some a)
        else gatherGo rest (some d)

/-- `Nfa.__gather_actions(states)`: the fold starts with `action = None`. -/
def gatherActions (l : List (Option Action)) : Except Unit (Option Action) :=
  gatherGo l none

/-- Embeds `Action.dominant_action` (action.py lines 83-96): same loop shape,
starting from the empty action, over a list of actions. -/
def dominantGo : List Action → Action → Except Unit Action
  | [], dom => .ok dom
  | a :: rest, dom =>
    if a.nonzero = false then dominantGo rest dom
    else if dom.nonzero = false then dominantGo rest a
    else if a.precedence = dom.precedence then
      (if a.term = dom.term then dominantGo rest dom else .error ())
    else if a.precedence < dom.precedence then dominantGo rest a
    else dominantGo rest dom

/-- `Action.dominant_action(actions)`. -/
def Action.dominantAction (l : List Action) : Except Unit Action :=
  dominantGo l Action.emptyAction

/-! ### Transition keys

`transition_keys.py` is not part of the tree; `TransitionKey` and its
operations are modelled from the spec (§3, §4.1). -/

/-- Modelled from the spec: a `TransitionKey` is `Epsilon`, the `Omega`
accept edge, a synthetic `Unique(tag)` marker, or a character predicate
given by a union of closed intervals of the primary range
(`SingleChar(c)` is `ranges [(c, c)]`, `Range(lo, hi)` is
`ranges [(lo, hi)]`; a merged key carries several intervals).  Named
character classes are not needed by the automata studied here. -/
inductive TransitionKey where
  | epsilon
  | omega
  | unique (tag : String)
  | ranges (rs : List (Nat × Nat))
deriving DecidableEq

/-- `TransitionKey.single_char`. -/
def TransitionKey.singleChar (c : Nat) : TransitionKey := .ranges [(c, c)]

/-- Modelled from the spec: `matches_char` — only character-predicate keys
match concrete symbols. -/
def TransitionKey.matchesChar : TransitionKey → Nat → Bool
  | .ranges rs, c => rs.any fun r => decide (r.1 ≤ c ∧ c ≤ r.2)
  | _, _ => false

/-- Modelled from the spec: `is_superset_of` / `matches_key` — every symbol
matched by the second key is matched by the first.  The second key is always
an element of a disjoint cover, i.e. a single interval, so interval
containment suffices; synthetic keys are supersets exactly of themselves. -/
def TransitionKey.isSupersetOfKey (k1 k2 : TransitionKey) : Bool :=
  match k1, k2 with
  | .ranges rs1, .ranges rs2 =>
      rs2.all fun r2 => rs1.any fun r1 => decide (r1.1 ≤ r2.1 ∧ r2.2 ≤ r1.2)
  | a, b => a == b

/-- Insert into a strictly ascending list of naturals, keeping it strictly
ascending (the embedding of a Python set of ints with its iteration order
fixed to ascending). -/
def insertSortedNat (x : Nat) : List Nat → List Nat
  | [] => [x]
  | y :: ys =>
    if x < y then x :: y :: ys
    else if x = y then y :: ys
    else y :: insertSortedNat x ys

/-- The canonical (sorted, duplicate-free) list for a collection of ids. -/
def natSetOf (l : List Nat) : List Nat := l.foldr insertSortedNat []

/-- Union of an arbitrary list into a canonical set list. -/
def natSetUnion (a b : List Nat) : List Nat := a.foldr insertSortedNat b

/-- Set intersection on canonical lists. -/
def natSetInter (a b : List Nat) : List Nat := a.filter fun x => b.contains x

/-- Set difference on canonical lists. -/
def natSetDiff (a b : List Nat) : List Nat := a.filter fun x => !(b.contains x)

/-- Insert into an ascending list of strings without duplicates. -/
def insertSortedStr (x : String) : List String → List String
  | [] => [x]
  | y :: ys =>
    if x = y then y :: ys
    else if x < y then x :: y :: ys
    else y :: insertSortedStr x ys

/-- Canonical sorted duplicate-free list of strings. -/
def natSetOfStr (l : List String) : List String := l.foldr insertSortedStr []

/-- Modelled from the spec: `disjoint_keys` — partition the union of the
primary-range keys into atomic intervals by an endpoint sweep, pass
synthetic keys through; the result is deterministically ordered (interval
atoms ascending, then unique keys by tag, then omega, then epsilon). -/
def disjointKeys (keys : List TransitionKey) : List TransitionKey :=
  let allRanges := keys.foldl (fun acc k =>
    match k with | .ranges rs => acc ++ rs | _ => acc) []
  let points := natSetOf
    (allRanges.map Prod.fst ++ allRanges.map fun r => r.2 + 1)
  let atoms := (points.zip points.tail).filterMap fun (a, b) =>
    if allRanges.any (fun r => decide (r.1 ≤ a ∧ b - 1 ≤ r.2)) then
      some (TransitionKey.ranges [(a, b - 1)])
    else none
  let uniques := natSetOfStr (keys.filterMap fun k =>
    match k with | .unique t => some t | _ => none)
  atoms ++ uniques.map TransitionKey.unique
    ++ (if keys.contains .omega then [TransitionKey.omega] else [])
    ++ (if keys.contains .epsilon then [TransitionKey.epsilon] else [])

/-- `merged_key` modelled from the spec: the union of keys targeting one
state; a singleton list is its own merge, several primary-range keys merge
into the key holding all their intervals. -/
def TransitionKey.mergedKey (keys : List TransitionKey) : TransitionKey :=
  match keys with
  | [k] => k
  | _ => .ranges (keys.foldl (fun acc k =>
      match k with | .ranges rs => acc ++ rs | _ => acc) [])

/-! ### The NFA (`nfa.py`) -/

/-- Embeds a closed `NfaState` (nfa.py): its transition map, optional
action, and cached epsilon closure; states are identified by node number. -/
structure NfaState where
  transitions : List (TransitionKey × List Nat)
  action : Option Action
  closure : List Nat

/-- Embeds `Nfa` (nfa.py): states indexed by node number, a start node and
the global end node. -/
structure Nfa where
  states : List (Nat × NfaState)
  start : Nat
  stop : Nat

def Nfa.getState (n : Nfa) (i : Nat) : NfaState :=
  (n.states.lookup i).getD ⟨[], none, []⟩

/-- `Nfa.__close` (nfa.py 131-134): the set united with every member's
cached epsilon closure. -/
def Nfa.close (n : Nfa) (s : List Nat) : List Nat :=
  s.foldl (fun acc i => natSetUnion (n.getState i).closure acc) (natSetOf s)

/-- `NfaState.char_matches`: union of targets of keys matching the symbol. -/
def NfaState.charMatches (st : NfaState) (c : Nat) : List Nat :=
  st.transitions.foldl (fun acc kv =>
    if kv.1.matchesChar c then natSetUnion kv.2 acc else acc) []

/-- `NfaState.key_matches`: union of targets of keys that are supersets of
the given key. -/
def NfaState.keyMatches (st : NfaState) (k : TransitionKey) : List Nat :=
  st.transitions.foldl (fun acc kv =>
    if kv.1.isSupersetOfKey k then natSetUnion kv.2 acc else acc) []

/-- The loop of `Nfa.matches` (nfa.py 136-144). -/
def Nfa.matchesGo (n : Nfa) : List Nat → List Nat → Bool
  | [], valid => valid.contains n.stop
  | c :: cs, valid =>
    let transitions := valid.foldl
      (fun acc i => natSetUnion ((n.getState i).charMatches c) acc) []
    if transitions.isEmpty then false
    else n.matchesGo cs (n.close transitions)

/-- `Nfa.matches`: strings are embedded as lists of symbol codes. -/
def Nfa.matches (n : Nfa) (s : List Nat) : Bool :=
  n.matchesGo s (n.close [n.start])

/-- `Nfa.__gather_transition_keys` (nfa.py 146-150): all keys of the set's
states except epsilon, as a disjoint cover. -/
def Nfa.gatherTransitionKeys (n : Nfa) (s : List Nat) : List TransitionKey :=
  let keys := s.foldl (fun acc i =>
    (n.getState i).transitions.foldl (fun acc kv =>
      if acc.contains kv.1 then acc else acc ++ [kv.1]) acc) []
  disjointKeys (keys.filter fun k => !(k == TransitionKey.epsilon))

/-- One node record of the `dfa_nodes` mapping built by `Nfa.__to_dfa`:
`{'transitions': ..., 'terminal': ..., 'action': ...}`. -/
structure DfaNodeData where
  transitions : List (TransitionKey × String)
  terminal : Bool
  action : Option Action
deriving DecidableEq

/-- The canonical name of a state set (nfa.py line 171): node numbers
joined by `"."`.  The source sorts the `NfaState` objects themselves, and
`NfaState` defines no comparison methods, so Python 2 orders them by its
default object (address) order, fixed for the run but unrelated to node
numbers; this definition fixes that order to creation order (the sets
produced by `Nfa.close` are ascending), while `canonicalNameBy` below keeps
the object order explicit. -/
def canonicalName (s : List Nat) : String :=
  String.intercalate "." (s.map toString)

/-- Models Python 2's `sorted(nfa_state_set)` of nfa.py line 171 faithfully:
with no ordering methods on `NfaState`, the objects sort by the
interpreter's default object order — a total order fixed for the run with
no guaranteed relation to node numbers.  `objOrder` lists all node numbers
in that object order; sorting a set selects its members in that order. -/
def sortedByObjOrder (objOrder : List Nat) (s : List Nat) : List Nat :=
  objOrder.filter fun i => s.contains i

/-- The canonical name of nfa.py line 171 under the run's object order. -/
def canonicalNameBy (objOrder : List Nat) (s : List Nat) : String :=
  String.intercalate "." ((sortedByObjOrder objOrder s).map toString)

/-- Append one transition to a node of the mapping under construction. -/
def addTransitionTo (nodes : List (String × DfaNodeData)) (name : String)
    (k : TransitionKey) (tname : String) : List (String × DfaNodeData) :=
  nodes.map fun p =>
    if p.1 = name then
      (p.1, ⟨p.2.transitions ++ [(k, tname)], p.2.terminal, p.2.action⟩)
    else p

/-- Embeds `Nfa.__to_dfa` (nfa.py 167-185): close the set, memoize it under
its canonical name, record terminality and the gathered action, then fold
over the disjoint transition keys, recursing into each key's move set.  A
failing action-conflict assertion propagates as `.error ()`; the fuel
bounds the recursion depth and its exhaustion is `.error ()` as well. -/
def Nfa.toDfa (n : Nfa) : Nat → List Nat → List (String × DfaNodeData) →
    Except Unit (String × List (String × DfaNodeData))
  | 0, _, _ => .error ()
  | Nat.succ fuel, s, nodes =>
    let c := n.close s
    let name := canonicalName c
    if (nodes.lookup name).isSome then .ok (name, nodes)
    else
      match gatherActions (c.map fun i => (n.getState i).action) with
      | .error e => .error e
      | .ok act =>
        let nodes := nodes ++ [(name, ⟨[], c.contains n.stop, act⟩)]
        let folded : Except Unit (List (String × DfaNodeData)) :=
          (n.gatherTransitionKeys c).foldl
          (fun (acc : Except Unit (List (String × DfaNodeData))) k =>
            match acc with
            | .error e => .error e
            | .ok nodes =>
              let matchStates := c.foldl
                (fun acc i => natSetUnion ((n.getState i).keyMatches k) acc) []
              match n.toDfa fuel matchStates nodes with
              | .error e => .error e
              | .ok (tname, nodes) => .ok (addTransitionTo nodes name k tname))
          (.ok nodes)
        folded.map fun nodes => (name, nodes)

/-- `Nfa.__to_dfa` with the `sorted()` of nfa.py line 171 modelled by an
explicit run-fixed object order (see `canonicalNameBy`); apart from the
naming of state sets it is identical to `Nfa.toDfa`, which fixes the
object order to creation order. -/
def Nfa.toDfaBy (n : Nfa) (objOrder : List Nat) :
    Nat → List Nat → List (String × DfaNodeData) →
    Except Unit (String × List (String × DfaNodeData))
  | 0, _, _ => .error ()
  | Nat.succ fuel, s, nodes =>
    let c := n.close s
    let name := canonicalNameBy objOrder c
    if (nodes.lookup name).isSome then .ok (name, nodes)
    else
      match gatherActions (c.map fun i => (n.getState i).action) with
      | .error e => .error e
      | .ok act =>
        let nodes := nodes ++ [(name, ⟨[], c.contains n.stop, act⟩)]
        let folded : Except Unit (List (String × DfaNodeData)) :=
          (n.gatherTransitionKeys c).foldl
          (fun (acc : Except Unit (List (String × DfaNodeData))) k =>
            match acc with
            | .error e => .error e
            | .ok nodes =>
              let matchStates := c.foldl
                (fun acc i => natSetUnion ((n.getState i).keyMatches k) acc) []
              match n.toDfaBy objOrder fuel matchStates nodes with
              | .error e => .error e
              | .ok (tname, nodes) => .ok (addTransitionTo nodes name k tname))
          (.ok nodes)
        folded.map fun nodes => (name, nodes)

/-- `Nfa.compute_dfa` (nfa.py 187-190). -/
def Nfa.computeDfa (n : Nfa) (fuel : Nat) :
    Except Unit (String × List (String × DfaNodeData)) :=
  n.toDfa fuel [n.start] []

/-! ### The DFA (`dfa.py`) -/

/-- Embeds `DfaState` (dfa.py 32-69): name, optional action and the
transition map with one (merged) key per target. -/
structure DfaState where
  name : String
  action : Option Action
  transitions : List (TransitionKey × String)
deriving DecidableEq

/-- Embeds `Dfa` (dfa.py 71-111): states in mapping order, the start name,
the terminal set and the node count. -/
structure Dfa where
  states : List (String × DfaState)
  start : String
  terminalSet : List String
  nodeCount : Nat
deriving DecidableEq

/-- Group the keys of one mapping node by target (the `inversion` dict of
`Dfa.__init__`). -/
def invAdd (acc : List (String × List TransitionKey)) (target : String)
    (k : TransitionKey) : List (String × List TransitionKey) :=
  match acc with
  | [] => [(target, [k])]
  | (t, ks) :: rest =>
    if t = target then (t, ks ++ [k]) :: rest
    else (t, ks) :: invAdd rest target k

/-- `Dfa.__init__` (dfa.py 73-94): build one `DfaState` per mapping entry,
merging parallel keys per target with `merged_key`, and collect the
terminal set. -/
def Dfa.ofMapping (startName : String) (mapping : List (String × DfaNodeData)) :
    Dfa :=
  let states := mapping.map fun p =>
    let inversion := p.2.transitions.foldl
      (fun acc kv => invAdd acc kv.2 kv.1) []
    let trans := inversion.map fun q => (TransitionKey.mergedKey q.2, q.1)
    (p.1, (⟨p.1, p.2.action, trans⟩ : DfaState))
  let terminals := mapping.filterMap fun p =>
    if p.2.terminal then some p.1 else none
  ⟨states, startName, terminals, mapping.length⟩

def Dfa.getState (d : Dfa) (name : String) : DfaState :=
  (d.states.lookup name).getD ⟨"", none, []⟩

/-- `DfaState.char_matches` (dfa.py 57-66): the unique target whose key
matches the symbol, if any. -/
def DfaState.charMatchesD (st : DfaState) (c : Nat) : Option String :=
  (st.transitions.foldl (fun acc kv =>
    if kv.1.matchesChar c then
      (if acc.contains kv.2 then acc else acc ++ [kv.2])
    else acc) []).head?

/-- `DfaState.key_matches` (dfa.py 68-69). -/
def DfaState.keyMatchesD (st : DfaState) (k : TransitionKey) : Option String :=
  (st.transitions.foldl (fun acc kv =>
    if kv.1.isSupersetOfKey k then
      (if acc.contains kv.2 then acc else acc ++ [kv.2])
    else acc) []).head?

/-- The walk underlying `Dfa.collect_actions`/`Dfa.matches`
(dfa.py 120-136): `matches` is true iff the last collected action is
`TERMINATE`, i.e. the walk consumes the whole string and ends in a
terminal state; any missing transition yields `MISS`. -/
def Dfa.matchesGo (d : Dfa) : List Nat → String → Bool
  | [], cur => d.terminalSet.contains cur
  | c :: cs, cur =>
    match (d.getState cur).charMatchesD c with
    | none => false
    | some nxt => d.matchesGo cs nxt

/-- `Dfa.matches`. -/
def Dfa.matches (d : Dfa) (s : List Nat) : Bool := d.matchesGo s d.start

/-! ### The minimizer (`dfa.py 157-345`) -/

/-- Transition targets of a state in transition order, without duplicates. -/
def Dfa.successors (d : Dfa) (name : String) : List String :=
  (d.getState name).transitions.foldl
    (fun acc kv => if acc.contains kv.2 then acc else acc ++ [kv.2]) []

/-- Modelled from the spec: `visit_all_states` — a deterministic
breadth-first wave traversal from the start state (the `visit_edges`
pattern of automaton.py 44-54); the start state is visited first. -/
def Dfa.visitGo (d : Dfa) : Nat → List String → List String → List String
  | 0, _, visited => visited
  | fuel + 1, edge, visited =>
    if edge.isEmpty then visited
    else
      let nextEdge := edge.foldl (fun acc x =>
        acc ++ (d.successors x).filter fun y => !(acc.contains y)) []
      let visited := visited ++ edge
      d.visitGo fuel (nextEdge.filter fun y => !(visited.contains y)) visited

/-- The visit order used to number states: ids `0, 1, …` in order. -/
def Dfa.visitOrder (d : Dfa) : List String :=
  d.visitGo (d.nodeCount + 1) [d.start] []

/-- `id_map` of `DfaMinimizer.__partition`: node id to state name. -/
def Dfa.idMapD (d : Dfa) : List (Nat × String) := d.visitOrder.enum

/-- The action-signature keys of `DfaMinimizer.__partition`
(dfa.py 188-211): a truthy action of a terminal state, the string
`"nonterminal action " + str(action)` for a truthy action of a
non-terminal state, `"terminal_set"` for an action-less terminal state and
`None` otherwise. -/
inductive PKey where
  | noneKey
  | strKey (s : String)
  | actKey (a : Action)

/-- Dict-key equality for `PKey`: `Action` keys compare with
`Action.__eq__` (term equality). -/
def pkeyEq : PKey → PKey → Bool
  | .noneKey, .noneKey => true
  | .strKey a, .strKey b => a == b
  | .actKey a, .actKey b => Action.eq a b
  | _, _ => false

mutual

/-- `Term.__str__` (action.py 68-71). -/
def Term.str : Term → String
  | .intT i => toString i
  | .strT s => s
  | .term name args =>
    "(" ++ String.intercalate "," (name :: Term.strList args) ++ ")"

/-- String forms of a `Term` argument list. -/
def Term.strList : List Term → List String
  | [] => []
  | t :: ts => Term.str t :: Term.strList ts

end

/-- `Action.__str__` (action.py 121-122). -/
def Action.str (a : Action) : String :=
  "action <" ++ (if a.nonzero then a.term.str else "") ++ ">"

/-- Ordered-dict update for the `action_map` of `__partition`.  For
`Action` keys the source dict additionally gates equality on Python 2's
default identity hash (`Action` defines `__eq__` but no `__hash__`); that
gate is modelled by `addToActionMapPy2` below and is immaterial to the
automata studied with this map, whose states carry `None` actions. -/
def addToPKeyMap : List (PKey × List Nat) → PKey → Nat → List (PKey × List Nat)
  | [], k, i => [(k, [i])]
  | (k', v) :: rest, k, i =>
    if pkeyEq k k' then (k', v ++ [i]) :: rest
    else (k', v) :: addToPKeyMap rest k i

/-- Python 2 dict-key collision for two `Action` keys of `action_map`:
`Action` defines `__eq__` but no `__hash__` (action.py), so the dict's hash
gate uses the default identity hash; keys collide only when both the
identity hashes and `__eq__` agree.  Object identity is embedded as an
explicit id paired with the action. -/
def pyActionKeyEq (a b : Action × Nat) : Bool :=
  (a.2 == b.2) && Action.eq a.1 b.1

/-- The `action_map` update of `DfaMinimizer.__partition` for truthy
`Action` keys under Python 2 dict semantics (identity hash gate, then
`__eq__`). -/
def addToActionMapPy2 :
    List ((Action × Nat) × List Nat) → Action × Nat → Nat →
    List ((Action × Nat) × List Nat)
  | [], k, i => [(k, [i])]
  | (k', v) :: rest, k, i =>
    if pyActionKeyEq k k' then (k', v ++ [i]) :: rest
    else (k', v) :: addToActionMapPy2 rest k i

/-- The initial partition of `DfaMinimizer.__partition` (dfa.py 188-211):
states grouped by action signature, in first-encounter order. -/
def Dfa.initialParts (d : Dfa) : List (List Nat) :=
  let am := d.idMapD.foldl (fun am p =>
    let st := d.getState p.2
    let terminal := d.terminalSet.contains p.2
    let key : PKey :=
      match st.action with
      | some a =>
        if a.nonzero then
          (if terminal then .actKey a
           else .strKey ("nonterminal action " ++ a.str))
        else (if terminal then .strKey "terminal_set" else .noneKey)
      | none => if terminal then .strKey "terminal_set" else .noneKey
    addToPKeyMap am key p.1) []
  am.map fun kv => kv.2

/-- `DfaMinimizer.__generate_alphabet` (dfa.py 213-216). -/
def Dfa.generateAlphabet (d : Dfa) : List TransitionKey :=
  disjointKeys (d.visitOrder.foldl
    (fun acc name => acc ++ (d.getState name).transitions.map Prod.fst) [])

/-- Reverse id lookup (`reverse_id_map`). -/
def reverseId (idMap : List (Nat × String)) (name : String) : Option Nat :=
  (idMap.find? fun p => p.2 == name).map Prod.fst

/-- The per-state transition arrays over the alphabet indices
(dfa.py 285-294). -/
def Dfa.transTable (d : Dfa) (idMap : List (Nat × String))
    (alphabet : List TransitionKey) : List (Nat × List (Option Nat)) :=
  idMap.map fun p =>
    (p.1, alphabet.map fun k =>
      match (d.getState p.2).keyMatchesD k with
      | none => none
      | some tname => reverseId idMap tname)

/-- The splitter computation of `DfaMinimizer.minimize` (dfa.py 307-312):
for the popped partition `T` and alphabet index `k`, collect every state id
whose transition array entry is *truthy* and lies in `T` — the source's
`if transition_id and test_array[transition_id]` makes a transition whose
target is state id `0` falsy, so it is never collected. -/
def mapIntoPartition (transitions : List (Nat × List (Option Nat)))
    (keyIndex : Nat) (testPartition : List Nat) : List Nat :=
  transitions.foldl (fun acc p =>
    match p.2.getD keyIndex none with
    | none => acc
    | some tid =>
      if decide (tid ≠ 0) && testPartition.contains tid then acc ++ [p.1]
      else acc) []

/-- One split pass over all partitions for a non-empty splitter `X`
(dfa.py 315-340): every partition meeting `X` properly is replaced by
intersection and difference; the working set is updated by replacement or
by the smaller half. -/
def splitStep (X : List Nat) (parts W : List (List Nat)) :
    List (List Nat) × List (List Nat) :=
  let folded := parts.foldl
    (fun (acc : List (List Nat) × List (List Nat) × List (List Nat)) p =>
      let inter := natSetInter p X
      if inter.isEmpty then acc
      else
        let diff := natSetDiff p X
        if diff.isEmpty then acc
        else
          let W := if acc.2.2.contains p then
              (acc.2.2.erase p) ++ [inter, diff]
            else if inter.length ≤ diff.length then acc.2.2 ++ [inter]
            else acc.2.2 ++ [diff]
          (acc.1 ++ [p], acc.2.1 ++ [inter, diff], W))
    ([], [], W)
  ((parts.filter fun p => !(folded.1.contains p)) ++ folded.2.1, folded.2.2)

/-- The per-key loop for one popped partition (dfa.py 307-340). -/
def refineKeysGo (transitions : List (Nat × List (Option Nat)))
    (T : List Nat) : List Nat → List (List Nat) → List (List Nat) →
    List (List Nat) × List (List Nat)
  | [], parts, W => (parts, W)
  | ki :: rest, parts, W =>
    let X := mapIntoPartition transitions ki T
    if X.isEmpty then refineKeysGo transitions T rest parts W
    else
      let pw := splitStep X parts W
      refineKeysGo transitions T rest pw.1 pw.2

/-- The outer `while working_set` refinement loop (dfa.py 296-340); the pop
takes the first element of the working set, and the fuel bounds the number
of iterations. -/
def refineLoop (transitions : List (Nat × List (Option Nat)))
    (keyRange : List Nat) : Nat → List (List Nat) → List (List Nat) →
    Option (List (List Nat))
  | 0, parts, W => if W.isEmpty then some parts else none
  | fuel + 1, parts, W =>
    match W with
    | [] => some parts
    | T :: W' =>
      let pw := refineKeysGo transitions T keyRange parts W'
      refineLoop transitions keyRange fuel pw.1 pw.2

/-- `StatePartition.__str__`: the Python `str` of the id list. -/
def partitionName (p : List Nat) : String :=
  "[" ++ String.intercalate ", " (p.map toString) ++ "]"

/-- `DfaMinimizer.__merge_partitions` (dfa.py 245-271): one mapping node
per partition, built from its first (least-id) representative; transitions
on each alphabet key lead to the partition holding the original target. -/
def Dfa.mergePartitions (d : Dfa) (idMap : List (Nat × String))
    (parts : List (List Nat)) : String × List (String × DfaNodeData) :=
  let alphabet := d.generateAlphabet
  let mapping := parts.map fun p =>
    let name := (idMap.lookup (p.headD 0)).getD ""
    let st := d.getState name
    let trans := alphabet.foldl (fun acc key =>
      match st.keyMatchesD key with
      | none => acc
      | some tname =>
        match reverseId idMap tname with
        | none => acc
        | some tid =>
          match parts.find? fun q => q.contains tid with
          | none => acc
          | some q => acc ++ [(key, partitionName q)]) []
    (partitionName p,
      (⟨trans, d.terminalSet.contains name, st.action⟩ : DfaNodeData))
  let startId := (reverseId idMap d.start).getD 0
  let startName :=
    match parts.find? fun q => q.contains startId with
    | some q => partitionName q
    | none => ""
  (startName, mapping)

/-- The refinement result of `minimize` for a given fuel. -/
def Dfa.refined (d : Dfa) (fuel : Nat) : Option (List (List Nat)) :=
  refineLoop (d.transTable d.idMapD d.generateAlphabet)
    (List.range d.generateAlphabet.length) fuel d.initialParts d.initialParts

/-- The outcome of `DfaMinimizer.minimize`: either `return self.__dfa`
(the input object itself) or a freshly constructed mapping. -/
inductive MinimizeOutcome where
  | sameDfa
  | freshDfa (start : String) (mapping : List (String × DfaNodeData))
deriving DecidableEq

/-- `DfaMinimizer.minimize` (dfa.py 273-345): one action-signature class
returns the input; after refinement, as many partitions as states returns
the input; otherwise a fresh DFA is built from the merged partitions. -/
def Dfa.minimizeRun (d : Dfa) (fuel : Nat) : Option MinimizeOutcome :=
  if d.initialParts.length = 1 then some .sameDfa
  else
    match d.refined fuel with
    | none => none
    | some finalParts =>
      if finalParts.length = d.idMapD.length then some .sameDfa
      else
        some (.freshDfa (d.mergePartitions d.idMapD finalParts).1
          (d.mergePartitions d.idMapD finalParts).2)

/-- `Dfa.minimize` as a DFA-producing function: the `sameDfa` outcome is
the unmodified input value. -/
def Dfa.minimizeD (d : Dfa) (fuel : Nat) : Option Dfa :=
  match d.minimizeRun fuel with
  | none => none
  | some .sameDfa => some d
  | some (.freshDfa s m) => some (Dfa.ofMapping s m)

/-! ### `NfaBuilder.__repeat` (nfa_builder.py 87-107) -/

/-- A builder-arena state: transition map plus the list of open (unclosed)
keys; `unclosed = none` means the state has been closed. -/
structure BState where
  transitions : List (TransitionKey × List Nat)
  unclosed : Option (List TransitionKey)
deriving DecidableEq

/-- The builder arena (`NfaBuilder`): node counter and created states. -/
structure Builder where
  nodeNumber : Nat
  arena : List (Nat × BState)
deriving DecidableEq

/-- `NfaBuilder.__new_state`: bump the counter, create an open state. -/
def Builder.newState (b : Builder) : Builder × Nat :=
  (⟨b.nodeNumber + 1, b.arena ++ [(b.nodeNumber + 1, ⟨[], some []⟩)]⟩,
    b.nodeNumber + 1)

/-- Point update of one arena state. -/
def Builder.update (b : Builder) (i : Nat) (f : BState → BState) : Builder :=
  ⟨b.nodeNumber, b.arena.map fun p => if p.1 = i then (p.1, f p.2) else p⟩

/-- `NfaState.add_unclosed_transition`. -/
def Builder.addUnclosed (b : Builder) (i : Nat) (k : TransitionKey) : Builder :=
  b.update i fun st => ⟨st.transitions, st.unclosed.map (· ++ [k])⟩

/-- `NfaState.__add_transition` with a concrete target. -/
def addKeyTarget (ts : List (TransitionKey × List Nat)) (k : TransitionKey)
    (t : Nat) : List (TransitionKey × List Nat) :=
  if (ts.lookup k).isSome then
    ts.map fun kv => if kv.1 = k then (kv.1, natSetUnion [t] kv.2) else kv
  else ts ++ [(k, [t])]

/-- `NfaState.add_epsilon_transition`. -/
def Builder.addEpsilon (b : Builder) (i target : Nat) : Builder :=
  b.update i fun st => ⟨addKeyTarget st.transitions .epsilon target, st.unclosed⟩

/-- `NfaState.close(end)` (nfa.py 89-98): close each unclosed key onto the
target; a state with no unclosed keys gets an epsilon edge instead. -/
def Builder.closeState (b : Builder) (i target : Nat) : Builder :=
  b.update i fun st =>
    match st.unclosed with
    | none => st
    | some ks =>
      let ts := ks.foldl (fun ts k => addKeyTarget ts k target) st.transitions
      ⟨if ks.isEmpty then addKeyTarget ts .epsilon target else ts, none⟩

/-- `NfaBuilder.__patch_ends`. -/
def Builder.patchEnds (b : Builder) (ends : List Nat) (target : Nat) : Builder :=
  ends.foldl (fun b e => b.closeState e target) b

/-- `NfaBuilder.__key_state`. -/
def Builder.keyState (b : Builder) (k : TransitionKey) : Builder × Nat × List Nat :=
  let bs := b.newState
  (bs.1.addUnclosed bs.2 k, bs.2, [bs.2])

/-- The `xrange(1, param_min)` chain loop of `__repeat`: each iteration
processes a fresh copy of the subtree (a single-character literal here) and
patches the previous ends to its start. -/
def Builder.repeatChainGo (c : Nat) : Nat → Builder → List Nat → Builder × List Nat
  | 0, b, ends => (b, ends)
  | k + 1, b, ends =>
    let bse := b.keyState (TransitionKey.singleChar c)
    Builder.repeatChainGo c k (bse.1.patchEnds ends bse.2.1) bse.2.2

/-- The optional-tail loop of `__repeat` (`xrange(param_min, param_max)`):
patch the ends into a fresh midpoint, build the next copy, link the
midpoint to it by epsilon, and remember the midpoint. -/
def Builder.repeatTailGo (c : Nat) :
    Nat → Builder → List Nat → List Nat → Builder × List Nat × List Nat
  | 0, b, ends, mids => (b, ends, mids)
  | k + 1, b, ends, mids =>
    let bm := b.newState
    let b := bm.1.patchEnds ends bm.2
    let bse := b.keyState (TransitionKey.singleChar c)
    Builder.repeatTailGo c k (bse.1.addEpsilon bm.2 bse.2.1) bse.2.2
      (mids ++ [bm.2])

/-- Embeds `NfaBuilder.__repeat` (nfa_builder.py 87-107) for the subtree
`SINGLE_CHAR(c)`: the leading `assert param_min > 1 and
param_min <= param_max` is embedded as `.error ()`; otherwise `param_min`
copies are chained and `param_max - param_min` optional tails are appended
via midpoint states. -/
def Builder.repeatChar (b : Builder) (c pmin pmax : Nat) :
    Except Unit (Builder × Nat × List Nat) :=
  if ¬ (1 < pmin ∧ pmin ≤ pmax) then .error ()
  else
    let bse := b.keyState (TransitionKey.singleChar c)
    let chained := Builder.repeatChainGo c (pmin - 1) bse.1 bse.2.2
    if pmin = pmax then .ok (chained.1, bse.2.1, chained.2)
    else
      let tailed := Builder.repeatTailGo c (pmax - pmin) chained.1 chained.2 []
      .ok (tailed.1, bse.2.1, tailed.2.1 ++ tailed.2.2)

/-- `RegexParser.p_repetition` (regex_parser.py 85-91): the regex form
`{m}` produces `("REPEAT", m, m)` and `{m,n}` produces `("REPEAT", m, n)`. -/
def pRepetition (m : Nat) (n : Option Nat) : String × Nat × Nat :=
  match n with
  | none => ("REPEAT", m, m)
  | some n => ("REPEAT", m, n)

/-! ### `CodeGenerator.__transform_state` (code_generator.py 59-139) -/

/-- One atom yielded by `TransitionKey.range_iter`. -/
inductive Atom where
  | cls (name : String)
  | primaryRange (lo hi : Nat)
  | uniqueA (tag : String)
  | omegaA
deriving DecidableEq

/-- The evolving state of the transition-processing loop of
`__transform_state`. -/
structure TransformSt where
  transitions : List (List Atom × Nat)
  zeroTransition : Option Nat
  omegaTransition : Option Nat
  uniqueTransitions : List (String × Nat)
  classKeys : Nat
  distinctKeys : Nat
  ranges : Nat
  totalTransitions : Nat
  lastTid : Nat
deriving DecidableEq

/-- All counters zero, nothing collected. -/
def transformInit : TransformSt := ⟨[], none, none, [], 0, 0, 0, 0, 0⟩

/-- The inner atom loop of `__transform_state` (code_generator.py 76-106)
for one `(key, transition_id)` pair; each failing assert is `.error ()`. -/
def transformAtoms (tid : Nat) :
    List Atom → TransformSt → List Atom → Except Unit (TransformSt × List Atom)
  | [], st, keys => .ok (st, keys)
  | .cls name :: rest, st, keys =>
    transformAtoms tid rest {st with classKeys := st.classKeys + 1}
      (keys ++ [.cls name])
  | .primaryRange lo hi :: rest, st, keys =>
    let st := {st with distinctKeys := st.distinctKeys + (hi - lo + 1),
                       ranges := st.ranges + 1}
    if lo = 0 then
      if st.zeroTransition.isSome then .error ()
      else
        let st := {st with zeroTransition := some tid}
        if hi = 0 then transformAtoms tid rest st keys
        else transformAtoms tid rest st (keys ++ [.primaryRange 1 hi])
    else transformAtoms tid rest st (keys ++ [.primaryRange lo hi])
  | .uniqueA tag :: rest, st, keys =>
    if tag ≠ "eos" then .error ()
    else if (st.uniqueTransitions.lookup tag).isSome then .error ()
    else
      transformAtoms tid rest
        {st with uniqueTransitions := st.uniqueTransitions ++ [(tag, tid)],
                 totalTransitions := st.totalTransitions + 1} keys
  | .omegaA :: rest, st, keys =>
    if st.omegaTransition.isSome then .error ()
    else if tid = 0 then .error ()
    else
      transformAtoms tid rest
        {st with omegaTransition := some tid,
                 totalTransitions := st.totalTransitions + 1} keys

/-- The outer pair loop of `__transform_state`; `lastTid` tracks the Python
loop variable `transition_id` as it leaks out of the loop. -/
def transformLoop : List (List Atom × Nat) → TransformSt → Except Unit TransformSt
  | [], st => .ok st
  | (atoms, tid) :: rest, st =>
    match transformAtoms tid atoms st [] with
    | .error e => .error e
    | .ok (st, keys) =>
      let st :=
        if keys.isEmpty then st
        else {st with transitions := st.transitions ++ [(keys, tid)]}
      transformLoop rest {st with lastTid := tid}

/-- Embeds the transition-shaping part of `CodeGenerator.__transform_state`
(code_generator.py 62-113): process every `(key-atoms, target)` pair in
sorted order, then re-append the split-out zero range at the end — targeting
the value the source actually uses there, the leftover loop variable
`transition_id` of line 111, not the saved `zero_transition`. -/
def transformState (old : List (List Atom × Nat)) : Except Unit TransformSt :=
  match transformLoop old transformInit with
  | .error e => .error e
  | .ok st =>
    let st :=
      if st.zeroTransition.isSome then
        { st with
          transitions := st.transitions ++ [([.primaryRange 0 0], st.lastTid)]
          ranges := st.ranges + 1 }
      else st
    .ok {st with totalTransitions := st.totalTransitions + st.transitions.length}

/-! ### Concrete automata -/

/-- The NFA built by `NfaBuilder` for the regex `(ab|ce)*` (creation-order
node numbers: 1 is the global end; 2 the `OR` start with epsilons to the
two branches; 3 `'a'`→4, 4 `'b'`→7, 5 `'c'`→6, 6 `'e'`→7 the literal
states; 7 the `ZERO_OR_MORE` start with epsilons to 2 and — from the final
`patch_ends` — to the global end). -/
def nfaCE : Nfa :=
  { states :=
      [ (1, ⟨[], none, []⟩)
      , (2, ⟨[(.epsilon, [3, 5])], none, [3, 5]⟩)
      , (3, ⟨[(.singleChar 97, [4])], none, []⟩)
      , (4, ⟨[(.singleChar 98, [7])], none, []⟩)
      , (5, ⟨[(.singleChar 99, [6])], none, []⟩)
      , (6, ⟨[(.singleChar 101, [7])], none, []⟩)
      , (7, ⟨[(.epsilon, [1, 2])], none, [1, 2, 3, 5]⟩) ]
    start := 7
    stop := 1 }

/-- The DFA obtained from `nfaCE` by `compute_dfa` and the `Dfa`
constructor. -/
def dfaCE : Dfa :=
  match nfaCE.computeDfa 9 with
  | .ok p => Dfa.ofMapping p.1 p.2
  | .error _ => Dfa.ofMapping "" []

/-- A four-state DFA (start `S0`): `S0` and `T` are terminal with identical
transitions `a→B, b→C, d→T`; `B` goes `c→S0` and `C` goes `c→T`.  Its true
minimal DFA has two states (`S0 ≡ T`, `B ≡ C`). -/
def dfa4 : Dfa := Dfa.ofMapping "S0"
  [ ("S0", ⟨[(.singleChar 97, "B"), (.singleChar 98, "C"),
             (.singleChar 100, "T")], true, none⟩)
  , ("B", ⟨[(.singleChar 99, "S0")], false, none⟩)
  , ("C", ⟨[(.singleChar 99, "T")], false, none⟩)
  , ("T", ⟨[(.singleChar 97, "B"), (.singleChar 98, "C"),
            (.singleChar 100, "T")], true, none⟩) ]

/-- A two-state already-minimal DFA: `S0 --a--> S1`, `S1` terminal. -/
def dfa2 : Dfa := Dfa.ofMapping "S0"
  [ ("S0", ⟨[(.singleChar 97, "S1")], false, none⟩)
  , ("S1", ⟨[], true, none⟩) ]

/-- A non-empty action `KEYWORD` at precedence 1, for concrete tests. -/
def actKeyword : Action := ⟨Term.term "KEYWORD" [], 1⟩

/-- A non-empty action `IDENT` at precedence 1, for concrete tests. -/
def actIdent : Action := ⟨Term.term "IDENT" [], 1⟩

/-- A non-empty action `WS` at precedence 0, for concrete tests. -/
def actWs : Action := ⟨Term.term "WS" [], 0⟩

/-- A non-empty action `NUM` at precedence 3, for concrete tests. -/
def actNum : Action := ⟨Term.term "NUM" [], 3⟩

/-- Master lemma for the `__gather_actions` fold: whenever the loop finishes
without a failing assertion, the result is the accumulator or a non-empty
action from the list; it is at most the precedence of every non-empty action
seen, and any non-empty action (from the list or the accumulator) at the
result's precedence has the result's term. -/
lemma gatherGo_ok (l : List (Option Action)) (acc : Option Action)
    (res : Option Action) (h : gatherGo l acc = .ok res) :
    (res = acc ∨ ∃ a, res = some a ∧ some a ∈ l ∧ a.nonzero = true)
    ∧ (∀ b, some b ∈ l → b.nonzero = true →
        ∃ r, res = some r ∧ r.nonzero = true ∧ r.precedence ≤ b.precedence
          ∧ (r.precedence = b.precedence → r.term = b.term))
    ∧ (∀ d, acc = some d → d.nonzero = true →
        ∃ r, res = some r ∧ r.nonzero = true ∧ r.precedence ≤ d.precedence
          ∧ (r.precedence = d.precedence → r.term = d.term)) := by
  induction l generalizing acc with
  | nil =>
    simp only [gatherGo, Except.ok.injEq] at h
    subst h
    refine ⟨Or.inl rfl, ?_, ?_⟩
    · intro b hb; simp at hb
    · intro d hd hdn; exact ⟨d, hd, hdn, le_refl _, fun _ => rfl⟩
  | cons x rest ih =>
    match x with
    | none =>
      simp only [gatherGo] at h
      obtain ⟨hmem, hmin, haccc⟩ := ih acc h
      refine ⟨?_, ?_, haccc⟩
      · rcases hmem with h1 | ⟨a, h1, h2, h3⟩
        · exact Or.inl h1
        · exact Or.inr ⟨a, h1, List.mem_cons_of_mem _ h2, h3⟩
      · intro b hb hbn
        rcases List.mem_cons.mp hb with h1 | h1
        · cases h1
        · exact hmin b h1 hbn
    | some a =>
      by_cases han : a.nonzero = false
      · simp only [gatherGo, han, if_pos rfl] at h
        obtain ⟨hmem, hmin, haccc⟩ := ih acc h
        refine ⟨?_, ?_, haccc⟩
        · rcases hmem with h1 | ⟨a', h1, h2, h3⟩
          · exact Or.inl h1
          · exact Or.inr ⟨a', h1, List.mem_cons_of_mem _ h2, h3⟩
        · intro b hb hbn
          rcases List.mem_cons.mp hb with h1 | h1
          · cases h1; rw [hbn] at han; cases han
          · exact hmin b h1 hbn
      · have han' : a.nonzero = true := by
          cases hh : a.nonzero
          · exact absurd hh han
          · rfl
        have hcond : ¬(a.nonzero = false) := by simp [han']
        simp only [gatherGo, if_neg hcond] at h
        match acc with
        | none =>
          obtain ⟨hmem, hmin, haccc⟩ := ih (some a) h
          have hres := haccc a rfl han'
          obtain ⟨r, hr, hrn, hrle, hrt⟩ := hres
          refine ⟨?_, ?_, ?_⟩
          · rcases hmem with h1 | ⟨a', h1, h2, h3⟩
            · exact Or.inr ⟨a, h1, List.mem_cons_self _ _, han'⟩
            · exact Or.inr ⟨a', h1, List.mem_cons_of_mem _ h2, h3⟩
          · intro b hb hbn
            rcases List.mem_cons.mp hb with h1 | h1
            · cases h1; exact ⟨r, hr, hrn, hrle, hrt⟩
            · exact hmin b h1 hbn
          · intro d hd; cases hd
        | some d =>
          by_cases hdn : d.nonzero = false
          · simp only [hdn, if_pos rfl] at h
            obtain ⟨hmem, hmin, haccc⟩ := ih (some a) h
            obtain ⟨r, hr, hrn, hrle, hrt⟩ := haccc a rfl han'
            refine ⟨?_, ?_, ?_⟩
            · rcases hmem with h1 | ⟨a', h1, h2, h3⟩
              · exact Or.inr ⟨a, h1, List.mem_cons_self _ _, han'⟩
              · exact Or.inr ⟨a', h1, List.mem_cons_of_mem _ h2, h3⟩
            · intro b hb hbn
              rcases List.mem_cons.mp hb with h1 | h1
              · cases h1; exact ⟨r, hr, hrn, hrle, hrt⟩
              · exact hmin b h1 hbn
            · intro d' hd' hd'n
              cases hd'; rw [hd'n] at hdn; cases hdn
          · have hdn' : d.nonzero = true := by
              cases hh : d.nonzero
              · exact absurd hh hdn
              · rfl
            simp only [hdn'] at h
            by_cases hpe : a.precedence = d.precedence
            · simp only [hpe, if_pos rfl] at h
              by_cases heq : Action.eq a d = true
              · simp only [heq, if_pos rfl] at h
                have hteq : a.term = d.term := by
                  simpa [Action.eq, beq_iff_eq] using heq
                obtain ⟨hmem, hmin, haccc⟩ := ih (some d) h
                obtain ⟨r, hr, hrn, hrle, hrt⟩ := haccc d rfl hdn'
                refine ⟨?_, ?_, ?_⟩
                · rcases hmem with h1 | ⟨a', h1, h2, h3⟩
                  · exact Or.inl h1
                  · exact Or.inr ⟨a', h1, List.mem_cons_of_mem _ h2, h3⟩
                · intro b hb hbn
                  rcases List.mem_cons.mp hb with h1 | h1
                  · cases h1
                    refine ⟨r, hr, hrn, ?_, ?_⟩
                    · rw [hpe]; exact hrle
                    · intro hrp; rw [hteq]; exact hrt (by rw [← hpe]; exact hrp)
                  · exact hmin b h1 hbn
                · intro d' hd' hd'n
                  cases hd'; exact ⟨r, hr, hrn, hrle, hrt⟩
              · simp only [heq] at h
                simp at h
            · simp only [if_neg hpe] at h
              by_cases hlt : a.precedence < d.precedence
              · simp only [hlt, if_pos rfl] at h
                obtain ⟨hmem, hmin, haccc⟩ := ih (some a) h
                obtain ⟨r, hr, hrn, hrle, hrt⟩ := haccc a rfl han'
                refine ⟨?_, ?_, ?_⟩
                · rcases hmem with h1 | ⟨a', h1, h2, h3⟩
                  · exact Or.inr ⟨a, h1, List.mem_cons_self _ _, han'⟩
                  · exact Or.inr ⟨a', h1, List.mem_cons_of_mem _ h2, h3⟩
                · intro b hb hbn
                  rcases List.mem_cons.mp hb with h1 | h1
                  · cases h1; exact ⟨r, hr, hrn, hrle, hrt⟩
                  · exact hmin b h1 hbn
                · intro d' hd' hd'n
                  cases hd'
                  refine ⟨r, hr, hrn, le_trans hrle (le_of_lt hlt), ?_⟩
                  intro hrp
                  exact absurd (lt_of_le_of_lt (hrp ▸ hrle) hlt) (by simp [hrp])
              · rw [if_neg hlt] at h
                obtain ⟨hmem, hmin, haccc⟩ := ih (some d) h
                obtain ⟨r, hr, hrn, hrle, hrt⟩ := haccc d rfl hdn'
                have hdlt : d.precedence < a.precedence := by
                  rcases lt_trichotomy a.precedence d.precedence with h1 | h1 | h1
                  · exact absurd h1 hlt
                  · exact absurd h1 hpe
                  · exact h1
                refine ⟨?_, ?_, ?_⟩
                · rcases hmem with h1 | ⟨a', h1, h2, h3⟩
                  · exact Or.inl h1
                  · exact Or.inr ⟨a', h1, List.mem_cons_of_mem _ h2, h3⟩
                · intro b hb hbn
                  rcases List.mem_cons.mp hb with h1 | h1
                  · cases h1
                    refine ⟨r, hr, hrn, le_trans hrle (le_of_lt hdlt), ?_⟩
                    intro hrp
                    exact absurd (lt_of_le_of_lt (hrp ▸ hrle) hdlt) (by simp [hrp])
                  · exact hmin b h1 hbn
                · intro d' hd' hd'n
                  cases hd'; exact ⟨r, hr, hrn, hrle, hrt⟩

/-- Counterexample to C10's grouping clause: the actions `ID@0` and `ID@1`
compare equal under `Action.__eq__`, yet as distinct objects (identity
hashes 100 and 101) they seed two separate classes in the hash-gated
`action_map` of `__partition`, because `Action` defines `__eq__` but no
`__hash__`. -/
theorem c10_counterexample_identity_hash_splits_group :
    Action.eq ⟨Term.term "ID" [], 0⟩ ⟨Term.term "ID" [], 1⟩ = true
    ∧ addToActionMapPy2
        (addToActionMapPy2 [] (⟨Term.term "ID" [], 0⟩, 100) 0)
        (⟨Term.term "ID" [], 1⟩, 101) 1
      = [((⟨Term.term "ID" [], 0⟩, 100), [0]),
         ((⟨Term.term "ID" [], 1⟩, 101), [1])] :=
  ⟨rfl, rfl⟩

/-- C10 (amended): `Action` equality holds exactly when the two terms are
structurally equal; precedences are ignored, so actions with the same term
but different precedences compare equal — this is the equality used by the
equal-precedence tie check.  The action-signature grouping, however, keys
its dict by Python 2's default identity hash before `__eq__` (`Action` has
no `__hash__`), so two equal-comparing `Action` keys with distinct
identity hashes never share a signature class. -/
theorem c10_action_eq_term_only_identity_hash_grouping :
    (∀ a b : Action, Action.eq a b = true ↔ a.term = b.term)
    ∧ (∀ (t : Term) (p q : Int), Action.eq ⟨t, p⟩ ⟨t, q⟩ = true)
    ∧ (∀ (a b : Action) (ia ib : Nat) (l : List Nat) (j : Nat), ia ≠ ib →
        addToActionMapPy2 [((a, ia), l)] (b, ib) j
          = [((a, ia), l), ((b, ib), [j])]) := by
  refine ⟨?_, ?_, ?_⟩
  · intro a b; simp [Action.eq, beq_iff_eq]
  · intro t p q; simp [Action.eq, beq_iff_eq]
  · intro a b ia ib l j hne
    have h : pyActionKeyEq (b, ib) (a, ia) = false := by
      unfold pyActionKeyEq
      have hb : (ib == ia) = false := beq_eq_false_iff_ne.mpr (Ne.symm hne)
      simp [hb]
    simp [addToActionMapPy2, h]

/-- Witness for C10's amended theorem: inserting the equal-comparing
`ID@1` (identity hash 101) into a map holding `ID@0` (identity hash 100)
appends a second signature class. -/
theorem c10_action_eq_term_only_identity_hash_grouping_witness :
    addToActionMapPy2 [((⟨Term.term "ID" [], 0⟩, 100), [0])]
        (⟨Term.term "ID" [], 1⟩, 101) 1
      = [((⟨Term.term "ID" [], 0⟩, 100), [0]),
         ((⟨Term.term "ID" [], 1⟩, 101), [1])] :=
  (c10_action_eq_term_only_identity_hash_grouping).2.2
    ⟨Term.term "ID" [], 0⟩ ⟨Term.term "ID" [], 1⟩ 100 101 [0] 1 (by decide)

/-- C3: when `__gather_actions` completes without an assertion failure, it
returns `None` only when no state carries a non-empty action, and otherwise
it returns a non-empty action from the set whose precedence value is minimal
among the non-empty actions. -/
theorem c3_gather_actions_min_precedence
    (l : List (Option Action)) (res : Option Action)
    (h : gatherActions l = .ok res) :
    (res = none → ∀ x ∈ l, optActionTruthy x = false)
    ∧ (∀ r, res = some r →
        some r ∈ l ∧ r.nonzero = true
          ∧ ∀ b, some b ∈ l → b.nonzero = true → r.precedence ≤ b.precedence) := by
  obtain ⟨hmem, hmin, -⟩ := gatherGo_ok l none res h
  constructor
  · intro hnone x hx
    cases hxv : optActionTruthy x with
    | false => rfl
    | true =>
      exfalso
      match x, hxv with
      | some b, hxv =>
        have hb : b.nonzero = true := by simpa [optActionTruthy] using hxv
        obtain ⟨r, hr, -, -, -⟩ := hmin b hx hb
        rw [hnone] at hr; cases hr
  · intro r hres
    subst hres
    rcases hmem with h1 | ⟨a, h1, h2, h3⟩
    · cases h1
    · have h4 : r = a := Option.some.inj h1
      subst h4
      refine ⟨h2, h3, ?_⟩
      intro b hb hbn
      obtain ⟨r', hr', -, hle, -⟩ := hmin b hb hbn
      have h5 : r' = r := (Option.some.inj hr').symm
      subst h5
      exact hle

/-- Witness for C3 at a concrete state set: the dominant action of
`[None, NUM@3, KEYWORD@1]` is `KEYWORD@1`, a member of minimal precedence. -/
theorem c3_gather_actions_min_precedence_witness :
    some actKeyword ∈ [none, some actNum, some actKeyword]
    ∧ actKeyword.nonzero = true
    ∧ ∀ b, some b ∈ [none, some actNum, some actKeyword] →
        b.nonzero = true → actKeyword.precedence ≤ b.precedence :=
  (c3_gather_actions_min_precedence [none, some actNum, some actKeyword]
    (some actKeyword) rfl).2 actKeyword rfl

/-- Counterexample to C4: the state set `{WS@0, KEYWORD@1, IDENT@1}` contains
two non-empty actions with equal precedence 1 and structurally different
terms, yet `__gather_actions`, iterating in an order that meets the
lower-precedence action first, completes without any abort and returns
`WS@0`: no `ActionConflictError` (which in fact exists nowhere in the code)
is raised. -/
theorem c4_counterexample_no_abort :
    gatherActions [some actWs, some actKeyword, some actIdent]
        = .ok (some actWs)
    ∧ actKeyword.precedence = actIdent.precedence
    ∧ actKeyword.term ≠ actIdent.term
    ∧ actKeyword.nonzero = true ∧ actIdent.nonzero = true :=
  ⟨rfl, rfl, by decide, rfl, rfl⟩

/-- C4 (amended): with two non-empty, equal-precedence, different-term
actions in the set, `__gather_actions` either hits the failing
`assert state.action() == action` (a bare assertion, embedded as
`.error ()`, which names no terms) or returns a non-empty action of the set
with strictly smaller precedence — it never silently picks one of the
conflicting pair; the abort is guaranteed when the pair's precedence is
minimal among the non-empty actions. -/
theorem c4_conflict_abort_or_lower_precedence
    (l : List (Option Action)) (a b : Action)
    (ha : some a ∈ l) (hb : some b ∈ l) (han : a.nonzero = true)
    (hbn : b.nonzero = true) (hpe : a.precedence = b.precedence)
    (hne : a.term ≠ b.term) :
    (gatherActions l = .error () ∨
      ∃ d, gatherActions l = .ok (some d) ∧ some d ∈ l
        ∧ d.precedence < a.precedence)
    ∧ ((∀ c, some c ∈ l → c.nonzero = true → a.precedence ≤ c.precedence) →
        gatherActions l = .error ()) := by
  cases hres : gatherActions l with
  | error e =>
    cases e
    exact ⟨Or.inl rfl, fun _ => rfl⟩
  | ok res =>
    obtain ⟨hmem, hmin, -⟩ := gatherGo_ok l none res hres
    obtain ⟨r, hr, hrn, hrlea, hrta⟩ := hmin a ha han
    obtain ⟨r', hr', -, hrleb, hrtb⟩ := hmin b hb hbn
    have hrr : r' = r := Option.some.inj (hr ▸ hr').symm
    rw [hrr] at hrleb hrtb
    have hstrict : r.precedence < a.precedence := by
      rcases lt_or_eq_of_le hrlea with h1 | h1
      · exact h1
      · exfalso
        have t1 : r.term = a.term := hrta h1
        have t2 : r.term = b.term := hrtb (by rw [h1, hpe])
        exact hne (t1 ▸ t2)
    have hrmem : some r ∈ l := by
      rcases hmem with h1 | ⟨a', h1, h2, h3⟩
      · rw [hr] at h1; cases h1
      · rw [hr] at h1
        obtain rfl : a' = r := by injection h1 with h; exact h.symm
        exact h2
    refine ⟨Or.inr ⟨r, by rw [hr], hrmem, hstrict⟩, ?_⟩
    intro hmincond
    exact absurd (hmincond r hrmem hrn) (not_le.mpr hstrict)

/-- Membership in `insertSortedNat`. -/
lemma mem_insertSortedNat {a x : Nat} {l : List Nat} :
    a ∈ insertSortedNat x l ↔ a = x ∨ a ∈ l := by
  induction l with
  | nil => simp [insertSortedNat]
  | cons y ys ih =>
    unfold insertSortedNat
    by_cases h1 : x < y
    · simp [h1]
    · rw [if_neg h1]
      by_cases h2 : x = y
      · subst h2
        rw [if_pos rfl]
        simp only [List.mem_cons]
        tauto
      · rw [if_neg h2]
        simp only [List.mem_cons, ih]
        tauto

/-- `insertSortedNat` preserves strict ascending order. -/
lemma pairwise_insertSortedNat {x : Nat} {l : List Nat}
    (h : l.Pairwise (· < ·)) : (insertSortedNat x l).Pairwise (· < ·) := by
  induction l with
  | nil => simp [insertSortedNat]
  | cons y ys ih =>
    rw [List.pairwise_cons] at h
    obtain ⟨hy, hys⟩ := h
    unfold insertSortedNat
    by_cases h1 : x < y
    · rw [if_pos h1]
      refine List.Pairwise.cons ?_ (List.Pairwise.cons hy hys)
      intro b hb
      rcases List.mem_cons.mp hb with rfl | hb
      · exact h1
      · exact lt_trans h1 (hy b hb)
    · rw [if_neg h1]
      by_cases h2 : x = y
      · rw [if_pos h2]; exact List.Pairwise.cons hy hys
      · rw [if_neg h2]
        have hxy : y < x := by omega
        refine List.Pairwise.cons ?_ (ih hys)
        intro b hb
        rcases mem_insertSortedNat.mp hb with rfl | hb
        · exact hxy
        · exact hy b hb

/-- `natSetUnion` preserves strict ascending order of its base. -/
lemma pairwise_natSetUnion (a : List Nat) {b : List Nat}
    (h : b.Pairwise (· < ·)) : (natSetUnion a b).Pairwise (· < ·) := by
  induction a with
  | nil => exact h
  | cons x xs ih =>
    have he : natSetUnion (x :: xs) b = insertSortedNat x (natSetUnion xs b) :=
      rfl
    rw [he]
    exact pairwise_insertSortedNat ih

/-- Canonical set lists are strictly ascending. -/
lemma pairwise_natSetOf (l : List Nat) : (natSetOf l).Pairwise (· < ·) :=
  pairwise_natSetUnion l List.Pairwise.nil

/-- Every epsilon-closed set produced by `Nfa.close` is a strictly
ascending list of node numbers. -/
lemma pairwise_close (n : Nfa) (s : List Nat) :
    (n.close s).Pairwise (· < ·) := by
  unfold Nfa.close
  have hgen : ∀ (t : List Nat) (acc : List Nat), acc.Pairwise (· < ·) →
      (t.foldl (fun acc i => natSetUnion (n.getState i).closure acc)
        acc).Pairwise (· < ·) := by
    intro t
    induction t with
    | nil => intro acc h; exact h
    | cons i ts ih =>
      intro acc h
      exact ih _ (pairwise_natSetUnion _ h)
  exact hgen s _ (pairwise_natSetOf s)

/-- Counterexample to C7's ordering clause: `NfaState` defines no
comparison methods, so the `sorted(nfa_state_set)` of nfa.py line 171
orders the set by the run's default object (address) order, which need not
follow node numbers; under the admissible object order `7,6,5,4,3,2,1` the
canonical name of the `(ab|ce)*` start closure is `"7.5.3.2.1"`, not the
increasing-numeric `"1.2.3.5.7"`. -/
theorem c7_counterexample_object_order_name :
    canonicalNameBy [7, 6, 5, 4, 3, 2, 1] (nfaCE.close [7]) = "7.5.3.2.1"
    ∧ String.intercalate "." ((nfaCE.close [7]).map toString) = "1.2.3.5.7"
    ∧ ("7.5.3.2.1" : String) ≠ "1.2.3.5.7" :=
  ⟨rfl, rfl, by decide⟩

/-- C7 (amended): the canonical name memoizing a set of NfaStates is its
node numbers joined by `"."` in the run's fixed object order (not
necessarily increasing numeric order), and since that order is fixed,
`__to_dfa` behaves identically on any two sets with the same epsilon
closure — whatever the object order — returning a recorded name without
creating any node. -/
theorem c7_object_order_name_memoizes_state_sets (n : Nfa)
    (objOrder : List Nat) (fuel : Nat) (s1 s2 : List Nat)
    (nodes : List (String × DfaNodeData)) (h : n.close s1 = n.close s2) :
    canonicalNameBy objOrder (n.close s1)
      = String.intercalate "."
          ((sortedByObjOrder objOrder (n.close s1)).map toString)
    ∧ n.toDfaBy objOrder (fuel + 1) s1 nodes
        = n.toDfaBy objOrder (fuel + 1) s2 nodes
    ∧ ((nodes.lookup (canonicalNameBy objOrder (n.close s1))).isSome = true →
        n.toDfaBy objOrder (fuel + 1) s1 nodes
          = .ok (canonicalNameBy objOrder (n.close s1), nodes)) := by
  refine ⟨rfl, ?_, ?_⟩
  · show Nfa.toDfaBy n objOrder (fuel + 1) s1 nodes
        = Nfa.toDfaBy n objOrder (fuel + 1) s2 nodes
    rw [Nfa.toDfaBy, Nfa.toDfaBy, h]
  · intro hmem
    rw [Nfa.toDfaBy]
    rw [if_pos hmem]

/-- Witness for C7's amended theorem at the `(ab|ce)*` NFA under the
reversed object order: the sets `{7}` and `{2, 7}` have the same epsilon
closure `{1, 2, 3, 5, 7}` and are treated identically. -/
theorem c7_object_order_name_memoizes_state_sets_witness :
    canonicalNameBy [7, 6, 5, 4, 3, 2, 1] (nfaCE.close [7])
      = String.intercalate "."
          ((sortedByObjOrder [7, 6, 5, 4, 3, 2, 1] (nfaCE.close [7])).map
            toString)
    ∧ nfaCE.toDfaBy [7, 6, 5, 4, 3, 2, 1] 9 [7] []
        = nfaCE.toDfaBy [7, 6, 5, 4, 3, 2, 1] 9 [2, 7] []
    ∧ ((([] : List (String × DfaNodeData)).lookup
          (canonicalNameBy [7, 6, 5, 4, 3, 2, 1] (nfaCE.close [7]))).isSome
            = true →
        nfaCE.toDfaBy [7, 6, 5, 4, 3, 2, 1] 9 [7] []
          = .ok (canonicalNameBy [7, 6, 5, 4, 3, 2, 1] (nfaCE.close [7]), [])) :=
  c7_object_order_name_memoizes_state_sets nfaCE [7, 6, 5, 4, 3, 2, 1] 8
    [7] [2, 7] [] (by decide)

/-- C6: `minimize` either returns the input DFA value itself — in
particular whenever refinement ends with as many partitions as states — or
a freshly constructed DFA built with the `Dfa` constructor from the merged
partitions; being a pure function of the input, it leaves the input's
states, transitions, actions and terminal set untouched in both cases. -/
theorem c6_minimize_returns_input_or_fresh (d : Dfa) (fuel : Nat) :
    (∀ finalParts, d.refined fuel = some finalParts →
        finalParts.length = d.idMapD.length →
        d.minimizeRun fuel = some .sameDfa ∧ d.minimizeD fuel = some d)
    ∧ (∀ r, d.minimizeRun fuel = some r →
        (r = .sameDfa ∧ d.minimizeD fuel = some d)
        ∨ ∃ s m, r = .freshDfa s m
            ∧ d.minimizeD fuel = some (Dfa.ofMapping s m)) := by
  constructor
  · intro fp hfp hlen
    have hrun : d.minimizeRun fuel = some .sameDfa := by
      unfold Dfa.minimizeRun
      by_cases h1 : d.initialParts.length = 1
      · simp [h1]
      · simp [h1, hfp, hlen]
    refine ⟨hrun, ?_⟩
    unfold Dfa.minimizeD
    rw [hrun]
  · intro r hr
    match r with
    | .sameDfa =>
      refine Or.inl ⟨rfl, ?_⟩
      unfold Dfa.minimizeD
      rw [hr]
    | .freshDfa s m =>
      refine Or.inr ⟨s, m, rfl, ?_⟩
      unfold Dfa.minimizeD
      rw [hr]

/-- Witness for C6 at `dfa2`: refinement ends with two partitions for two
states, and the input DFA value itself is returned. -/
theorem c6_minimize_returns_input_or_fresh_witness :
    dfa2.minimizeRun 10 = some .sameDfa ∧ dfa2.minimizeD 10 = some dfa2 :=
  (c6_minimize_returns_input_or_fresh dfa2 10).1 [[0], [1]] rfl rfl

/-- The state-id-0 truthiness bug of the splitter (C2, dfa.py 311): with
the transition table `0 ↦ [some 1]`, `1 ↦ [some 0]` and the popped
partition `T = {0}`, the state 1 has `transitions[1][0] = 0 ∈ T`, yet the
computed splitter is empty because `if transition_id and …` treats the id 0
as falsy; a transition to a non-zero id in `T` is collected. -/
theorem c2_splitter_drops_state_zero_targets :
    mapIntoPartition [(0, [some 1]), (1, [some 0])] 0 [0] = []
    ∧ (([(0, [some 1]), (1, [some 0])] :
          List (Nat × List (Option Nat))).lookup 1).getD [] = [some 0]
    ∧ ([0] : List Nat).contains 0 = true
    ∧ mapIntoPartition [(0, [some 2]), (1, [some 2])] 0 [2] = [0, 1] :=
  ⟨rfl, rfl, rfl, rfl⟩

/-- The end-to-end consequence of the splitter bug (C1): for the regex
`(ab|ce)*` the NFA and the subset-construction DFA both reject `"cb"`, but
the minimized DFA accepts it — the minimizer merges the inequivalent states
reached after `a` and after `c` because their distinguishing transitions
target state id 0; on `"ab"` all three agree. -/
theorem c1_minimized_dfa_changes_language :
    nfaCE.matches [99, 98] = false
    ∧ (nfaCE.computeDfa 9).isOk = true
    ∧ dfaCE.matches [99, 98] = false
    ∧ (dfaCE.minimizeD 32).map (fun m => m.matches [99, 98]) = some true
    ∧ nfaCE.matches [97, 98] = true
    ∧ dfaCE.matches [97, 98] = true
    ∧ (dfaCE.minimizeD 32).map (fun m => m.matches [97, 98]) = some true :=
  ⟨rfl, rfl, rfl, rfl, rfl, rfl, rfl⟩

/-- Non-idempotence of `minimize` (C5): `dfa4` has 4 states, one `minimize`
yields 3 states (the splitter bug hides that the two branch states must not
be split apart — and that the two terminal states may merge), and a second
`minimize` of the result yields 2 states; so
`minimize(minimize(D)) ≠ minimize(D)` while `node_count` never increases. -/
theorem c5_minimize_not_idempotent :
    dfa4.nodeCount = 4
    ∧ (dfa4.minimizeD 32).map Dfa.nodeCount = some 3
    ∧ ((dfa4.minimizeD 32).bind (fun m => m.minimizeD 32)).map Dfa.nodeCount
        = some 2 :=
  ⟨rfl, rfl, rfl⟩

/-- The leaked loop variable of the zero-range split (C8, code_generator.py
111): for a state with the sorted transitions `0-5 → 4` and `7-9 → 8`, the
zero symbol is split out and `zero_transition = 4` is saved, but the
appended `(0,0)` transition targets 8 — the last loop iteration's
`transition_id` — not the original zero-range target 4. -/
theorem c8_zero_split_targets_last_transition :
    transformState [([.primaryRange 0 5], 4), ([.primaryRange 7 9], 8)]
      = .ok ⟨[([.primaryRange 1 5], 4), ([.primaryRange 7 9], 8),
              ([.primaryRange 0 0], 8)],
             some 4, none, [], 0, 9, 3, 3, 8⟩ :=
  rfl

/-- REPEAT with `m = 1` (C9): the parser maps `a{1}` and `a{1,3}` to
`REPEAT(1,1)` and `REPEAT(1,3)`, but `NfaBuilder.__repeat` asserts
`param_min > 1`, so construction aborts for `m = 1` while it succeeds for
`m ≥ 2`. -/
theorem c9_repeat_rejects_min_one :
    pRepetition 1 none = ("REPEAT", 1, 1)
    ∧ Builder.repeatChar ⟨0, []⟩ 97 1 1 = .error ()
    ∧ pRepetition 1 (some 3) = ("REPEAT", 1, 3)
    ∧ Builder.repeatChar ⟨0, []⟩ 97 1 3 = .error ()
    ∧ (Builder.repeatChar ⟨0, []⟩ 97 2 3).isOk = true
    ∧ (Builder.repeatChar ⟨0, []⟩ 97 2 2).isOk = true :=
  ⟨rfl, rfl, rfl, rfl, rfl, rfl⟩

/-- Witness for C4's amended theorem: with the conflicting pair
`KEYWORD@1` / `IDENT@1` at minimal precedence the fold aborts. -/
theorem c4_conflict_abort_witness :
    (gatherActions [some actKeyword, some actIdent] = .error () ∨
      ∃ d, gatherActions [some actKeyword, some actIdent] = .ok (some d)
        ∧ some d ∈ [some actKeyword, some actIdent]
        ∧ d.precedence < actKeyword.precedence)
    ∧ ((∀ c, some c ∈ [some actKeyword, some actIdent] → c.nonzero = true →
          actKeyword.precedence ≤ c.precedence) →
        gatherActions [some actKeyword, some actIdent] = .error ()) :=
  c4_conflict_abort_or_lower_precedence [some actKeyword, some actIdent]
    actKeyword actIdent (by decide) (by decide) rfl rfl rfl (by decide)

end V8Lex
